import Mathlib

/-!
# Verification of the KAI repository-maintenance agent

Shallow embedding of the decision-loop core of the KAI agent
(`agent_core.py`, `kai_decision_engine.py`, `evaluator.py`, `planner.py`,
`llm_adapter.py`, `kai_evolve.py`, `kai_maintainer.py`) and proofs of the
spec's claims about it.  External tool invocations (git, pytest, flake8,
the LLM backend, the GitHub API) are modelled as oracle parameters; the
pure decision logic is translated line by line from the Python source.
Python string primitives used by the code (`strip`, `splitlines`,
`startswith`, the substring operator `in`) are modelled on the character
lists of the strings so that everything evaluates inside the kernel.
-/

namespace KAI

/-! ## Working-copy model

A repository working copy is modelled as an association list from relative
file paths to file contents.  `writeFS` is an overwriting write (as a
filesystem write is); `lookupFS` reads a file if it exists. -/

/-- A working copy: finite map from file path to content. -/
abbrev FS := List (String × String)

/-- Overwriting file write: replaces the entry for `p` or appends a new one. -/
def writeFS : FS → String → String → FS
  | [], p, c => [(p, c)]
  | (q, d) :: rest, p, c =>
    if q = p then (p, c) :: rest else (q, d) :: writeFS rest p c

/-- Read a file from the working copy, `none` if absent. -/
def lookupFS : FS → String → Option String
  | [], _ => none
  | (q, d) :: rest, p => if q = p then some d else lookupFS rest p

/-! ## Python string primitives, modelled on character lists -/

/-- The whitespace characters stripped by Python's `str.strip()`. -/
def isPySpace (c : Char) : Bool :=
  c = ' ' || c = '\t' || c = '\n' || c = '\r' || c = '\x0b' || c = '\x0c'

/-- Python's `str.strip()`: drop whitespace from both ends. -/
def pyStrip (s : String) : String :=
  ⟨((s.data.dropWhile isPySpace).reverse.dropWhile isPySpace).reverse⟩

/-- Split a character list at every newline. -/
def splitOnNl : List Char → List (List Char)
  | [] => [[]]
  | c :: rest =>
    if c = '\n' then [] :: splitOnNl rest
    else
      match splitOnNl rest with
      | [] => [[c]]
      | l :: ls => (c :: l) :: ls

/-- Python's `str.splitlines()` for `\n`-separated text: the empty string
has no lines, and a trailing newline does not produce a final empty line. -/
def splitlinesPy (s : String) : List String :=
  if s = "" then []
  else
    let parts := (splitOnNl s.data).map fun l => (⟨l⟩ : String)
    if parts.getLast? = some "" then parts.dropLast else parts

/-- Python's `s.startswith(pre)`. -/
def pyStartsWith (s pre : String) : Bool :=
  pre.data.isPrefixOf s.data

/-- Bool test: does `n` lead `h` (component-wise equal on `n`'s length)? -/
def leadsList : List Char → List Char → Bool
  | [], _ => true
  | _ :: _, [] => false
  | a :: as, b :: bs => a == b && leadsList as bs

/-- Bool test: does `needle` occur contiguously inside `hay`? -/
def occursIn (needle : List Char) : List Char → Bool
  | [] => needle.isEmpty
  | c :: rest => leadsList needle (c :: rest) || occursIn needle rest

/-- Python's substring operator `needle in hay` on strings. -/
def pyIn (needle hay : String) : Bool :=
  occursIn needle.data hay.data

/-! ## Score and delta (`agent_core.compute_score`, the inline delta in
`agent_core.process_repo`, and `kai_decision_engine.quality_score`) -/

/-- Embeds `agent_core.compute_score`:
`score = (100 if tests_ok else 0) - lint_count`. -/
def compute_score (tests_ok : Bool) (lint_count : ℕ) : ℤ :=
  (if tests_ok then 100 else 0) - lint_count

/-- Embeds the inline delta computation of `agent_core.process_repo`
(lines 88-92): `delta = 0.0; if score_b != 0: delta =
(score_a - score_b) / abs(score_b) * 100.0; elif score_a > 0: delta = 100.0`. -/
def process_repo_delta (score_b score_a : ℤ) : ℚ :=
  if score_b ≠ 0 then ((score_a : ℚ) - (score_b : ℚ)) / |(score_b : ℚ)| * 100
  else if score_a > 0 then 100 else 0

/-- Embeds `tests_score` inside `kai_decision_engine.quality_score`:
`1.0 if ok else 0.0`. -/
def tests_score (ok : Bool) : ℤ :=
  if ok then 1 else 0

/-- Embeds `kai_decision_engine.quality_score`: computes before/after scores
as `tests_score(ok)*100 - lint_count` and normalizes to a percent delta with
the zero-baseline special case. -/
def quality_score (tests_ok_before : Bool) (lint_before : ℕ)
    (tests_ok_after : Bool) (lint_after : ℕ) : ℚ :=
  let before : ℤ := tests_score tests_ok_before * 100 - lint_before
  let after : ℤ := tests_score tests_ok_after * 100 - lint_after
  if before = 0 then
    if after > 0 then 100 else 0
  else ((after : ℚ) - (before : ℚ)) / |(before : ℚ)| * 100

/-- Modelled from the spec (for comparison only): the Score formula of §3,
`score = (tests_passed ? 100 : 0) - lint_issue_count`. -/
def score_spec (tests_passed : Bool) (lint_issue_count : ℕ) : ℤ :=
  (if tests_passed then 100 else 0) - lint_issue_count

/-- Modelled from the spec (for comparison only): the Delta formula of §3,
`delta = (after - before) / |before| * 100` when `before != 0`; when
`before == 0`, `delta = 100` if `after > 0` else `0`. -/
def delta_spec (before after : ℤ) : ℚ :=
  if before ≠ 0 then ((after : ℚ) - (before : ℚ)) / |(before : ℚ)| * 100
  else if after > 0 then 100 else 0

/-! ## Candidate application paths (`agent_core.safe_write_file`,
`agent_core.apply_candidate`)

`safe_write_file` does `target = repo_dir / relpath;
target.parent.mkdir(parents=True); target.write_text(content)`. We model
the `pathlib` join and the OS-level resolution of `.` and `..` that happens
when the write is performed. -/

/-- A filesystem path: absolute or relative, with its components. -/
structure PyPath where
  absolute : Bool
  parts : List String
deriving DecidableEq, Repr

/-- Embeds `pathlib`'s `/` operator as used by `safe_write_file`
(`target = repo_dir / relpath`): an absolute right operand replaces the left
operand entirely; otherwise the components are concatenated.  No
normalization of `..` happens at join time, and `safe_write_file` performs
no validation of `relpath`. -/
def pathJoin (base child : PyPath) : PyPath :=
  if child.absolute then child else ⟨base.absolute, base.parts ++ child.parts⟩

/-- One step of OS-level path resolution: `.` is dropped, `..` removes the
last accumulated component, any other component is appended. -/
def resolveStep (acc : List String) (p : String) : List String :=
  if p = "." then acc
  else if p = ".." then acc.dropLast
  else acc ++ [p]

/-- Resolve `.` and `..` components of a path. -/
def resolvePath (p : PyPath) : PyPath :=
  ⟨p.absolute, p.parts.foldl resolveStep []⟩

/-- The filesystem location the write in `agent_core.safe_write_file` lands
at: the unvalidated `pathlib` join of `repo_dir` and `relpath`, after OS
resolution. -/
def safe_write_file_target (repo_dir relpath : PyPath) : PyPath :=
  resolvePath (pathJoin repo_dir relpath)

/-- Whether `target` lies inside the working-copy root `root`: same
absoluteness and the resolved root's components lead the target's. -/
def insideRoot (root target : PyPath) : Bool :=
  (target.absolute == root.absolute) &&
    (resolvePath root).parts.isPrefixOf target.parts

/-! ## Quality assessment (`evaluator.compute_quality` and the identical
`kai_decision_engine.compute_quality`)

Tool invocations are oracles: `hasTests` is whether `repo_dir/tests` or
`repo_dir/pytest.ini` exists; `pytestRun` is `.ok returncode` when the
pytest invocation (and its artifact write) completes and `.error ()` when
that `try` block raises; `flakeRun` likewise carries flake8's stdout or a
failure of the flake8 `try` block. -/

/-- Number of flake8 issue lines: the code strips the tool's stdout and,
when the result is nonempty, counts its lines
(`len(lint_out.splitlines())`). -/
def lintCountOf (stdout : String) : ℕ :=
  let out := pyStrip stdout
  if out = "" then 0 else (splitlinesPy out).length

/-- Embeds `compute_quality(repo_dir)`: mirrors the two `try/except` blocks
of the Python code.  A failing pytest block yields `tests_ok = False`; a
failing flake8 block yields the sentinel lint count 9999; no failure
escapes the function. -/
def compute_quality (hasTests : Bool) (pytestRun : Except Unit ℤ)
    (flakeRun : Except Unit String) : Bool × ℕ :=
  let tests_ok :=
    if hasTests then
      match pytestRun with
      | .ok rc => rc == 0
      | .error _ => false
    else true
  let lint_count :=
    match flakeRun with
    | .ok out => lintCountOf out
    | .error _ => 9999
  (tests_ok, lint_count)

/-- The `Result`-shaped view of the same assessment (spec §9): propagates
tool-invocation failures instead of catching them.  Used to state that
`compute_quality` is exactly this computation with failures collapsed at
the boundary. -/
def compute_quality_raw (hasTests : Bool) (pytestRun : Except Unit ℤ)
    (flakeRun : Except Unit String) : Except Unit (Bool × ℕ) := do
  let tests_ok ← if hasTests then pytestRun.map (fun rc => rc == 0) else .ok true
  let out ← flakeRun
  .ok (tests_ok, lintCountOf out)

/-! ## Candidate proposal (`planner.propose_candidates` over
`llm_adapter.call_llm`)

The LLM call and `json.loads` are collapsed into one oracle `loadsResult`:
`.error ()` when `json.loads` raises on the response text (this includes
the `"LLM_UNAVAILABLE"` fallback returned by `call_llm`, which is not valid
JSON), and `.ok v` when the response parses to the JSON value `v`. -/

/-- JSON values, as produced by `json.loads`. -/
inductive Json where
  | null : Json
  | bool : Bool → Json
  | num : Int → Json
  | str : String → Json
  | arr : List Json → Json
  | obj : List (String × Json) → Json

/-- Embeds `planner.propose_candidates`: the code does
`candidates = json.loads(resp); return candidates` inside a `try`, and
returns `[]` on any exception.  On success the parsed value is returned
unchanged, whatever its shape. -/
def propose_candidates (loadsResult : Except Unit Json) : Json :=
  match loadsResult with
  | .ok v => v
  | .error _ => .arr []

/-- Key lookup in a JSON object. -/
def jsonLookup : List (String × Json) → String → Option Json
  | [], _ => none
  | (k, v) :: rest, key => if k = key then some v else jsonLookup rest key

/-- Whether a JSON value is a string. -/
def isStrJson : Json → Bool
  | .str _ => true
  | _ => false

/-- Modelled from the spec (for comparison only): a record of the strict
candidate schema `{file, new_content, reason}` with string fields. -/
def isCandidateRecordJson : Json → Bool
  | .obj kvs =>
    (jsonLookup kvs "file").any isStrJson &&
      ((jsonLookup kvs "new_content").any isStrJson &&
        (jsonLookup kvs "reason").any isStrJson)
  | _ => false

/-- Modelled from the spec (for comparison only): the expected structure of
a proposal response, a list of candidate records. -/
def isCandidateBatchJson : Json → Bool
  | .arr xs => xs.all isCandidateRecordJson
  | _ => false

/-! ## Safe mutations (`kai_evolve.ensure_editorconfig`,
`kai_evolve.ensure_badge`, `kai_maintainer.apply_safe_mutations`) -/

/-- The `.editorconfig` content written by `ensure_editorconfig` (identical
inline in `kai_maintainer.apply_safe_mutations`). -/
def EDITORCONFIG_TEXT : String :=
  "root = true\n\n[*]\nend_of_line = lf\ninsert_final_newline = true\ncharset = utf-8\ntrim_trailing_whitespace = true\n"

/-- The badge line of `ensure_badge`. -/
def KAI_BADGE : String :=
  "[![Maintained by Kai](https://img.shields.io/badge/maintained%20by-Kai-blue)](#)"

/-- The marker `ensure_badge` looks for in the README. -/
def KAI_MARKER : String := "Maintained by Kai"

/-- Embeds `kai_evolve.ensure_editorconfig`: writes the default
`.editorconfig` if the file does not exist. -/
def ensure_editorconfig (fs : FS) : FS :=
  match lookupFS fs ".editorconfig" with
  | some _ => fs
  | none => writeFS fs ".editorconfig" EDITORCONFIG_TEXT

/-- Embeds `kai_evolve.ensure_badge`: if `README.md` exists and lacks the
marker, prepend the badge; if it does not exist, create a stub README
containing the badge. -/
def ensure_badge (fs : FS) : FS :=
  match lookupFS fs "README.md" with
  | some txt =>
    if pyIn KAI_MARKER txt then fs
    else writeFS fs "README.md" (KAI_BADGE ++ "\n\n" ++ txt)
  | none => writeFS fs "README.md" ("# Repo\n\n" ++ KAI_BADGE ++ "\n")

/-- Embeds `kai_maintainer.apply_safe_mutations`, which inlines exactly the
editorconfig mutation followed by the badge mutation. -/
def apply_safe_mutations (fs : FS) : FS :=
  ensure_badge (ensure_editorconfig fs)

/-! ## Allowlist and `main` (`agent_core.read_allowlist`,
`agent_core.main`, `kai_decision_engine.main`) -/

/-- Embeds `read_allowlist` (textually identical in `agent_core` and
`kai_decision_engine`): `repos.txt` is modelled as `none` when the file
does not exist, `some text` of its content otherwise.  Blank and
hash-prefixed lines are skipped. -/
def read_allowlist (reposTxt : Option String) : List String :=
  match reposTxt with
  | none => []
  | some text =>
    (splitlinesPy text).filterMap fun ln =>
      let s := pyStrip ln
      if s = "" || pyStartsWith s "#" then none else some s

/-- How a `main` invocation ends: killed at startup, missing credential,
empty allowlist, or proceeding to process the listed repositories. -/
inductive MainOutcome where
  | killed : MainOutcome
  | noToken : MainOutcome
  | noRepos : MainOutcome
  | ran : List String → MainOutcome
deriving DecidableEq, Repr

/-- Repositories a `main` outcome goes on to process: none on any early
return. -/
def mainTargets : MainOutcome → List String
  | .ran rs => rs
  | _ => []

/-- Embeds `agent_core.main` up to its repository loop, paired with the
process exit status: kill switch, then credential (`KAI_PAT` or
`GITHUB_TOKEN`; `none` models missing or empty), then allowlist; each early
return is a plain `return`, so the process exits with status 0. -/
def agent_main (killAtStart : Bool) (token : Option String)
    (reposTxt : Option String) : MainOutcome × ℕ :=
  if killAtStart then (.killed, 0)
  else
    match token with
    | none => (.noToken, 0)
    | some _ =>
      let allow := read_allowlist reposTxt
      if allow = [] then (.noRepos, 0) else (.ran allow, 0)

/-- Embeds `kai_decision_engine.main` up to its repository loop, paired
with the process exit status: a missing credential does `sys.exit(1)`; an
empty allowlist is a plain `return` (exit status 0). -/
def decision_main (token : Option String) (reposTxt : Option String) :
    MainOutcome × ℕ :=
  match token with
  | none => (.noToken, 1)
  | some _ =>
    let allow := read_allowlist reposTxt
    if allow = [] then (.noRepos, 0) else (.ran allow, 0)

/-! ## The candidate loop (`agent_core.process_repo`, lines 82-121)

External effects are oracles: `quality` abstracts `compute_quality` on a
working-copy state, `pushOk i` is whether the commit/branch/push/PR `try`
block for candidate `i` completes, and `kill i` is whether the kill-switch
file exists at the check performed before candidate `i`. -/

/-- A structured edit candidate (`{"file", "new_content", "reason"}`). -/
structure Candidate where
  file : String
  new_content : String
  reason : String
deriving DecidableEq, Repr

/-- Embeds `agent_core.apply_candidate` at the working-copy level: writes
`new_content` at `file` (path semantics are treated separately by
`safe_write_file_target`). -/
def apply_candidate (fs : FS) (c : Candidate) : FS :=
  writeFS fs c.file c.new_content

/-- Trace of one repository's candidate loop: for each candidate index, the
working-copy state it was applied to (`applied`); accepted candidates with
their delta (`accepts`); candidates rejected for a delta below the margin,
after which the code re-clones (`lowRejects`); candidates whose delta met
the margin but whose publication block raised, after which the code
continues on the mutated working copy (`pushFails`). -/
structure LoopTrace where
  applied : List (ℕ × FS)
  accepts : List (ℕ × ℚ)
  lowRejects : List ℕ
  pushFails : List ℕ
deriving Repr

/-- Embeds the `for cand in candidates` loop of `agent_core.process_repo`:
kill check, apply, re-measure, delta against the fixed baseline score
`score_b`; accept-and-stop when the delta meets the margin and publication
completes; on a failed publication continue on the mutated state (the code
has no revert on this path); on a delta below the margin, archive and
re-clone, restoring the baseline state `base` for the next candidate. -/
def candidate_loop (margin : ℚ) (quality : FS → Bool × ℕ) (pushOk : ℕ → Bool)
    (kill : ℕ → Bool) (base : FS) (score_b : ℤ) :
    List Candidate → ℕ → FS → LoopTrace
  | [], _, _ => ⟨[], [], [], []⟩
  | c :: rest, i, wc =>
    if kill i then ⟨[], [], [], []⟩
    else
      let wc1 := apply_candidate wc c
      let q := quality wc1
      let score_a := compute_score q.1 q.2
      let delta := process_repo_delta score_b score_a
      if margin ≤ delta then
        if pushOk i then ⟨[(i, wc)], [(i, delta)], [], []⟩
        else
          let t := candidate_loop margin quality pushOk kill base score_b rest (i + 1) wc1
          ⟨(i, wc) :: t.applied, t.accepts, t.lowRejects, i :: t.pushFails⟩
      else
        let t := candidate_loop margin quality pushOk kill base score_b rest (i + 1) base
        ⟨(i, wc) :: t.applied, t.accepts, i :: t.lowRejects, t.pushFails⟩

/-- Embeds `agent_core.process_repo`'s flow around the loop: baseline
measurement and score on the fresh clone, then the candidate loop started
at the baseline state with candidate index 0. -/
def process_repo_candidates (margin : ℚ) (quality : FS → Bool × ℕ)
    (pushOk kill : ℕ → Bool) (base : FS) (cands : List Candidate) : LoopTrace :=
  let qb := quality base
  candidate_loop margin quality pushOk kill base (compute_score qb.1 qb.2) cands 0 base

/-- Embeds `IMPROVEMENT_MARGIN = float(CONFIG.get("IMPROVEMENT_MARGIN", 5.0))`. -/
def IMPROVEMENT_MARGIN (config : Option ℚ) : ℚ :=
  config.getD 5

/-- Embeds the repository loop of `agent_core.main`
(`for full in allow: if check_kill(): break; process_repo(...)`): the
repositories actually processed, each paired with the index of the
kill-switch check performed just before it. -/
def repo_loop (kill : ℕ → Bool) : List String → ℕ → List (ℕ × String)
  | [], _ => []
  | r :: rest, i =>
    if kill i then [] else (i, r) :: repo_loop kill rest (i + 1)

/-! ## Concrete runs used to exhibit behaviors

A quality oracle under which any mutation of the empty baseline improves
the lint count, a flat one under which nothing improves, and a kill
schedule on which the sentinel file appears after the first check. -/

/-- Demo quality oracle: the empty working copy has 50 lint issues, any
nonempty one has none. -/
def demoQuality : FS → Bool × ℕ
  | [] => (true, 50)
  | _ :: _ => (true, 0)

/-- Demo quality oracle: constant, so every delta is zero. -/
def flatQuality : FS → Bool × ℕ := fun _ => (true, 0)

/-- First demo candidate. -/
def demoCandA : Candidate := ⟨"a.txt", "x", "normalize header"⟩

/-- Second demo candidate. -/
def demoCandB : Candidate := ⟨"b.txt", "y", "tidy imports"⟩

/-- Kill schedule: the sentinel file appears right after check 0. -/
def killAfter0 : ℕ → Bool := fun n => decide (0 < n)

/-- Kill schedule: the sentinel file never appears. -/
def noKill : ℕ → Bool := fun _ => false

/-- Publication oracle: every push/PR attempt raises. -/
def noPush : ℕ → Bool := fun _ => false

/-- Publication oracle: every push/PR attempt completes. -/
def yesPush : ℕ → Bool := fun _ => true

/-! ## Helper lemmas -/

theorem lookupFS_writeFS_self (fs : FS) (p c : String) :
    lookupFS (writeFS fs p c) p = some c := by
  induction fs with
  | nil => simp [writeFS, lookupFS]
  | cons hd tl ih =>
    obtain ⟨q, d⟩ := hd
    by_cases h : q = p
    · simp [writeFS, lookupFS, h]
    · simp [writeFS, lookupFS, h, ih]

theorem lookupFS_writeFS_ne (fs : FS) (p₁ p₂ c : String) (h : p₂ ≠ p₁) :
    lookupFS (writeFS fs p₂ c) p₁ = lookupFS fs p₁ := by
  induction fs with
  | nil => simp [writeFS, lookupFS, h]
  | cons hd tl ih =>
    obtain ⟨q, d⟩ := hd
    by_cases hq : q = p₂
    · subst hq
      simp [writeFS, lookupFS, h]
    · simp [writeFS, lookupFS, hq, ih]

theorem leadsList_append (n h t : List Char) (hl : leadsList n h = true) :
    leadsList n (h ++ t) = true := by
  induction n generalizing h with
  | nil => simp [leadsList]
  | cons a as ih =>
    cases h with
    | nil => simp [leadsList] at hl
    | cons b bs =>
      simp only [leadsList, Bool.and_eq_true] at hl
      simp only [List.cons_append, leadsList, Bool.and_eq_true]
      exact ⟨hl.1, ih bs hl.2⟩

theorem occursIn_append_right (n h t : List Char) (ho : occursIn n h = true) :
    occursIn n (h ++ t) = true := by
  induction h with
  | nil =>
    simp only [occursIn, List.isEmpty_iff] at ho
    subst ho
    cases t with
    | nil => simp [occursIn]
    | cons c cs => simp [occursIn, leadsList]
  | cons c cs ih =>
    simp only [occursIn, Bool.or_eq_true] at ho
    rcases ho with hl | ho
    · simp only [List.cons_append, occursIn, Bool.or_eq_true]
      left
      have := leadsList_append n (c :: cs) t hl
      simpa using this
    · simp only [List.cons_append, occursIn, Bool.or_eq_true]
      right
      exact ih ho

theorem occursIn_append_left (n pre h : List Char) (ho : occursIn n h = true) :
    occursIn n (pre ++ h) = true := by
  induction pre with
  | nil => simpa using ho
  | cons c cs ih =>
    simp only [List.cons_append, occursIn, Bool.or_eq_true]
    right
    exact ih

theorem marker_in_badge_middle (pre post : String) :
    pyIn KAI_MARKER (pre ++ KAI_BADGE ++ post) = true := by
  unfold pyIn
  rw [String.data_append, String.data_append]
  apply occursIn_append_right
  apply occursIn_append_left
  decide

theorem marker_after_badge (post : String) :
    pyIn KAI_MARKER (KAI_BADGE ++ "\n\n" ++ post) = true := by
  unfold pyIn
  rw [String.data_append, String.data_append]
  apply occursIn_append_right
  apply occursIn_append_right
  decide

theorem ensure_editorconfig_of_some (fs : FS) (c : String)
    (hE : lookupFS fs ".editorconfig" = some c) :
    ensure_editorconfig fs = fs := by
  unfold ensure_editorconfig
  rw [hE]

theorem ensure_editorconfig_of_none (fs : FS)
    (hE : lookupFS fs ".editorconfig" = none) :
    ensure_editorconfig fs = writeFS fs ".editorconfig" EDITORCONFIG_TEXT := by
  unfold ensure_editorconfig
  rw [hE]

theorem ensure_badge_of_marker (fs : FS) (txt : String)
    (hR : lookupFS fs "README.md" = some txt)
    (hm : pyIn KAI_MARKER txt = true) :
    ensure_badge fs = fs := by
  unfold ensure_badge
  rw [hR]
  simp [hm]

theorem ensure_badge_of_nomarker (fs : FS) (txt : String)
    (hR : lookupFS fs "README.md" = some txt)
    (hm : pyIn KAI_MARKER txt = false) :
    ensure_badge fs = writeFS fs "README.md" (KAI_BADGE ++ "\n\n" ++ txt) := by
  unfold ensure_badge
  rw [hR]
  simp [hm]

theorem ensure_badge_of_none (fs : FS)
    (hR : lookupFS fs "README.md" = none) :
    ensure_badge fs = writeFS fs "README.md" ("# Repo\n\n" ++ KAI_BADGE ++ "\n") := by
  unfold ensure_badge
  rw [hR]

theorem ensure_editorconfig_idem (fs : FS) :
    ensure_editorconfig (ensure_editorconfig fs) = ensure_editorconfig fs := by
  cases hE : lookupFS fs ".editorconfig" with
  | some c =>
    rw [ensure_editorconfig_of_some fs c hE, ensure_editorconfig_of_some fs c hE]
  | none =>
    rw [ensure_editorconfig_of_none fs hE]
    exact ensure_editorconfig_of_some _ _ (lookupFS_writeFS_self fs _ _)

theorem ensure_badge_idem (fs : FS) :
    ensure_badge (ensure_badge fs) = ensure_badge fs := by
  cases hR : lookupFS fs "README.md" with
  | some txt =>
    by_cases hm : pyIn KAI_MARKER txt = true
    · rw [ensure_badge_of_marker fs txt hR hm, ensure_badge_of_marker fs txt hR hm]
    · have hm' : pyIn KAI_MARKER txt = false := by simpa using hm
      rw [ensure_badge_of_nomarker fs txt hR hm']
      exact ensure_badge_of_marker _ _ (lookupFS_writeFS_self fs _ _) (marker_after_badge txt)
  | none =>
    rw [ensure_badge_of_none fs hR]
    exact ensure_badge_of_marker _ _ (lookupFS_writeFS_self fs _ _)
      (marker_in_badge_middle "# Repo\n\n" "\n")

theorem ec_lookup_some (fs : FS) :
    ∃ c, lookupFS (ensure_editorconfig fs) ".editorconfig" = some c := by
  cases hE : lookupFS fs ".editorconfig" with
  | some c =>
    rw [ensure_editorconfig_of_some fs c hE]
    exact ⟨c, hE⟩
  | none =>
    rw [ensure_editorconfig_of_none fs hE]
    exact ⟨EDITORCONFIG_TEXT, lookupFS_writeFS_self fs _ _⟩

theorem ensure_badge_preserves_ec (fs : FS) :
    lookupFS (ensure_badge fs) ".editorconfig" = lookupFS fs ".editorconfig" := by
  cases hR : lookupFS fs "README.md" with
  | some txt =>
    by_cases hm : pyIn KAI_MARKER txt = true
    · rw [ensure_badge_of_marker fs txt hR hm]
    · have hm' : pyIn KAI_MARKER txt = false := by simpa using hm
      rw [ensure_badge_of_nomarker fs txt hR hm']
      exact lookupFS_writeFS_ne fs _ _ _ (by decide)
  | none =>
    rw [ensure_badge_of_none fs hR]
    exact lookupFS_writeFS_ne fs _ _ _ (by decide)

theorem apply_safe_mutations_idem (fs : FS) :
    apply_safe_mutations (apply_safe_mutations fs) = apply_safe_mutations fs := by
  unfold apply_safe_mutations
  obtain ⟨c, hc⟩ := ec_lookup_some fs
  have h2 : lookupFS (ensure_badge (ensure_editorconfig fs)) ".editorconfig" = some c := by
    rw [ensure_badge_preserves_ec, hc]
  rw [ensure_editorconfig_of_some _ c h2, ensure_badge_idem]

theorem applied_index_ge (margin : ℚ) (quality : FS → Bool × ℕ)
    (pushOk kill : ℕ → Bool) (base : FS) (score_b : ℤ) :
    ∀ (cands : List Candidate) (i₀ : ℕ) (wc : FS) (j : ℕ) (s : FS),
      (j, s) ∈ (candidate_loop margin quality pushOk kill base score_b cands i₀ wc).applied →
      i₀ ≤ j := by
  intro cands
  induction cands with
  | nil =>
    intro i₀ wc j s h
    simp [candidate_loop] at h
  | cons c rest ih =>
    intro i₀ wc j s h
    simp only [candidate_loop] at h
    split at h
    · simp at h
    · split at h
      · split at h
        · simp at h
          omega
        · simp at h
          rcases h with ⟨hj, _⟩ | hmem
          · omega
          · have := ih (i₀ + 1) _ j s hmem
            omega
      · simp at h
        rcases h with ⟨hj, _⟩ | hmem
        · omega
        · have := ih (i₀ + 1) _ j s hmem
          omega

theorem lowRejects_index_ge (margin : ℚ) (quality : FS → Bool × ℕ)
    (pushOk kill : ℕ → Bool) (base : FS) (score_b : ℤ) :
    ∀ (cands : List Candidate) (i₀ : ℕ) (wc : FS) (j : ℕ),
      j ∈ (candidate_loop margin quality pushOk kill base score_b cands i₀ wc).lowRejects →
      i₀ ≤ j := by
  intro cands
  induction cands with
  | nil =>
    intro i₀ wc j h
    simp [candidate_loop] at h
  | cons c rest ih =>
    intro i₀ wc j h
    simp only [candidate_loop] at h
    split at h
    · simp at h
    · split at h
      · split at h
        · simp at h
        · simp at h
          have := ih (i₀ + 1) _ j h
          omega
      · simp at h
        rcases h with hj | hmem
        · omega
        · have := ih (i₀ + 1) _ j hmem
          omega

theorem accepts_index_ge (margin : ℚ) (quality : FS → Bool × ℕ)
    (pushOk kill : ℕ → Bool) (base : FS) (score_b : ℤ) :
    ∀ (cands : List Candidate) (i₀ : ℕ) (wc : FS) (p : ℕ × ℚ),
      p ∈ (candidate_loop margin quality pushOk kill base score_b cands i₀ wc).accepts →
      i₀ ≤ p.1 := by
  intro cands
  induction cands with
  | nil =>
    intro i₀ wc p h
    simp [candidate_loop] at h
  | cons c rest ih =>
    intro i₀ wc p h
    simp only [candidate_loop] at h
    split at h
    · simp at h
    · split at h
      · split at h
        · simp at h
          subst h
          simp
        · simp at h
          have := ih (i₀ + 1) _ p h
          omega
      · simp at h
        have := ih (i₀ + 1) _ p h
        omega

theorem applied_start_state (margin : ℚ) (quality : FS → Bool × ℕ)
    (pushOk kill : ℕ → Bool) (base : FS) (score_b : ℤ) :
    ∀ (cands : List Candidate) (i₀ : ℕ) (wc : FS) (s : FS),
      (i₀, s) ∈ (candidate_loop margin quality pushOk kill base score_b cands i₀ wc).applied →
      s = wc := by
  intro cands
  cases cands with
  | nil =>
    intro i₀ wc s h
    simp [candidate_loop] at h
  | cons c rest =>
    intro i₀ wc s h
    simp only [candidate_loop] at h
    split at h
    · simp at h
    · split at h
      · split at h
        · simp at h
          exact h
        · simp at h
          rcases h with hs | hmem
          · exact hs
          · have := applied_index_ge margin quality pushOk kill base score_b rest (i₀ + 1) _ i₀ s hmem
            exfalso
            omega
      · simp at h
        rcases h with hs | hmem
        · exact hs
        · have := applied_index_ge margin quality pushOk kill base score_b rest (i₀ + 1) _ i₀ s hmem
          exfalso
          omega

/-! ## Claims -/

/-- C1: the claim says the Candidate Applier validates the candidate's file
path and never writes outside the working-copy root.  The code performs a
plain `pathlib` join with no validation: for the working copy rooted at
`/home/kai/_kai_work/repo`, the candidate file `../evil.txt` is written to
`/home/kai/_kai_work/evil.txt`, outside the root, and an absolute candidate
path replaces the root entirely. -/
theorem safe_write_file_escapes_root :
    safe_write_file_target ⟨true, ["home", "kai", "_kai_work", "repo"]⟩
        ⟨false, ["..", "evil.txt"]⟩
      = ⟨true, ["home", "kai", "_kai_work", "evil.txt"]⟩
    ∧ insideRoot ⟨true, ["home", "kai", "_kai_work", "repo"]⟩
        (safe_write_file_target ⟨true, ["home", "kai", "_kai_work", "repo"]⟩
          ⟨false, ["..", "evil.txt"]⟩) = false
    ∧ insideRoot ⟨true, ["home", "kai", "_kai_work", "repo"]⟩
        (safe_write_file_target ⟨true, ["home", "kai", "_kai_work", "repo"]⟩
          ⟨true, ["tmp", "evil"]⟩) = false := by
  exact ⟨by decide, by decide, by decide⟩

/-- C2: the delta computed by the decision loop from before/after quality
measurements equals the spec's Delta formula composed with the spec's Score
formula, both for `kai_decision_engine.quality_score` and for the inline
delta of `agent_core.process_repo` over `compute_score`. -/
theorem delta_matches_spec :
    ∀ (tests_ok_before : Bool) (lint_before : ℕ)
      (tests_ok_after : Bool) (lint_after : ℕ),
      quality_score tests_ok_before lint_before tests_ok_after lint_after
          = delta_spec (score_spec tests_ok_before lint_before)
              (score_spec tests_ok_after lint_after)
        ∧ process_repo_delta (compute_score tests_ok_before lint_before)
              (compute_score tests_ok_after lint_after)
          = delta_spec (score_spec tests_ok_before lint_before)
              (score_spec tests_ok_after lint_after) := by
  intro tb lb ta la
  have hs : ∀ (t : Bool) (l : ℕ), tests_score t * 100 - (l : ℤ) = score_spec t l := by
    intro t l
    cases t <;> simp [tests_score, score_spec]
  constructor
  · simp only [quality_score]
    rw [hs tb lb, hs ta la]
    by_cases hb : score_spec tb lb = 0 <;> simp [delta_spec, hb]
  · rfl

/-- C3 counterexample: a run in which candidate 0 meets the margin but its
publication fails.  The code continues without re-cloning, so candidate 1
is applied to and scored against the mutated state `[("a.txt", "x")]`, not
the baseline `[]` — refuting the claim that every non-accepted candidate
(including one whose publication did not complete) leaves the next
candidate evaluated against a bit-identical baseline. -/
theorem pushfail_compounds_demo :
    (process_repo_candidates 5 demoQuality noPush noKill [] [demoCandA, demoCandB]).pushFails = [0, 1]
    ∧ (process_repo_candidates 5 demoQuality noPush noKill [] [demoCandA, demoCandB]).accepts = []
    ∧ (process_repo_candidates 5 demoQuality noPush noKill [] [demoCandA, demoCandB]).applied
        = [(0, ([] : FS)), (1, [("a.txt", "x")])]
    ∧ ([("a.txt", "x")] : FS) ≠ ([] : FS) := by
  refine ⟨?_, ?_, ?_, by simp⟩ <;>
  · simp [process_repo_candidates, candidate_loop, demoQuality, noPush, noKill,
      apply_candidate, writeFS, compute_score, demoCandA, demoCandB]
    norm_num [process_repo_delta]

/-- C3 (amended): after a candidate rejected because its delta is below the
margin, the working copy the next candidate is applied to is the baseline
clone — the re-clone on the low-delta rejection path restores the baseline;
the publication-failure path gives no such guarantee (see the
counterexample). -/
theorem next_after_lowReject_is_baseline (margin : ℚ) (quality : FS → Bool × ℕ)
    (pushOk kill : ℕ → Bool) (base : FS) (score_b : ℤ) :
    ∀ (cands : List Candidate) (i₀ : ℕ) (wc : FS) (i : ℕ) (s : FS),
      i ∈ (candidate_loop margin quality pushOk kill base score_b cands i₀ wc).lowRejects →
      (i + 1, s) ∈ (candidate_loop margin quality pushOk kill base score_b cands i₀ wc).applied →
      s = base := by
  intro cands
  induction cands with
  | nil =>
    intro i₀ wc i s hrej _
    simp [candidate_loop] at hrej
  | cons c rest ih =>
    intro i₀ wc i s hrej happ
    simp only [candidate_loop] at hrej happ
    have hco : _ ∧ _ := ⟨hrej, happ⟩
    clear hrej happ
    split at hco
    · obtain ⟨hrej, -⟩ := hco
      simp at hrej
    · split at hco
      · split at hco
        · obtain ⟨hrej, -⟩ := hco
          simp at hrej
        · obtain ⟨hrej, happ⟩ := hco
          simp only [List.mem_cons] at happ
          simp only at hrej
          rcases happ with heq | hmem
          · have := lowRejects_index_ge margin quality pushOk kill base score_b rest (i₀ + 1) _ i hrej
            have h1 : i + 1 = i₀ := congrArg Prod.fst heq
            omega
          · exact ih (i₀ + 1) _ i s hrej hmem
      · obtain ⟨hrej, happ⟩ := hco
        simp only [List.mem_cons] at hrej happ
        rcases hrej with hi | hrej
        · rcases happ with heq | hmem
          · have h1 : i + 1 = i₀ := congrArg Prod.fst heq
            omega
          · rw [hi] at hmem
            exact applied_start_state margin quality pushOk kill base score_b rest (i₀ + 1) base s hmem
        · rcases happ with heq | hmem
          · have := lowRejects_index_ge margin quality pushOk kill base score_b rest (i₀ + 1) _ i hrej
            have h1 : i + 1 = i₀ := congrArg Prod.fst heq
            omega
          · exact ih (i₀ + 1) _ i s hrej hmem

/-- C3 witness: in a run whose first candidate is rejected for a zero
delta, the amended theorem applies and the state candidate 1 is applied to
is the baseline. -/
theorem next_after_lowReject_is_baseline_witness :
    (0 ∈ (candidate_loop 5 flatQuality noPush noKill [] 100 [demoCandA, demoCandB] 0 []).lowRejects
      ∧ (0 + 1, ([] : FS)) ∈ (candidate_loop 5 flatQuality noPush noKill [] 100 [demoCandA, demoCandB] 0 []).applied)
    ∧ ([] : FS) = ([] : FS) := by
  have m1 : 0 ∈ (candidate_loop 5 flatQuality noPush noKill [] 100 [demoCandA, demoCandB] 0 []).lowRejects := by
    simp [candidate_loop, flatQuality, noPush, noKill, apply_candidate, writeFS,
      compute_score, demoCandA, demoCandB]
    norm_num [process_repo_delta]
  have m2 : (0 + 1, ([] : FS)) ∈ (candidate_loop 5 flatQuality noPush noKill [] 100 [demoCandA, demoCandB] 0 []).applied := by
    simp [candidate_loop, flatQuality, noPush, noKill, apply_candidate, writeFS,
      compute_score, demoCandA, demoCandB]
    norm_num [process_repo_delta]
  exact ⟨⟨m1, m2⟩,
    next_after_lowReject_is_baseline 5 flatQuality noPush noKill [] 100
      [demoCandA, demoCandB] 0 [] 0 [] m1 m2⟩

/-- C4: in any single repository run, at most one candidate is accepted;
every accepted candidate's delta is at least the margin; once a candidate
is accepted no later candidate is applied or evaluated (every applied index
is at most the accepted index); and the configured margin defaults to 5.0
when absent from the configuration. -/
theorem at_most_one_accept (margin : ℚ) (quality : FS → Bool × ℕ)
    (pushOk kill : ℕ → Bool) (base : FS) (score_b : ℤ) :
    ∀ (cands : List Candidate) (i₀ : ℕ) (wc : FS),
      (candidate_loop margin quality pushOk kill base score_b cands i₀ wc).accepts.length ≤ 1
      ∧ (∀ p ∈ (candidate_loop margin quality pushOk kill base score_b cands i₀ wc).accepts,
          margin ≤ p.2)
      ∧ (∀ p ∈ (candidate_loop margin quality pushOk kill base score_b cands i₀ wc).accepts,
          ∀ q ∈ (candidate_loop margin quality pushOk kill base score_b cands i₀ wc).applied,
            q.1 ≤ p.1)
      ∧ IMPROVEMENT_MARGIN none = 5 := by
  intro cands
  induction cands with
  | nil =>
    intro i₀ wc
    refine ⟨by simp [candidate_loop], by simp [candidate_loop], by simp [candidate_loop], rfl⟩
  | cons c rest ih =>
    intro i₀ wc
    refine ⟨?_, ?_, ?_, rfl⟩
    · simp only [candidate_loop]
      split
      · simp
      · split
        · split
          · simp
          · simpa using (ih (i₀ + 1) (apply_candidate wc c)).1
        · simpa using (ih (i₀ + 1) base).1
    · simp only [candidate_loop]
      split
      · simp
      · split
        · split
          · rename_i hd _
            intro p hp
            simp at hp
            subst hp
            exact hd
          · intro p hp
            simp only at hp
            exact (ih (i₀ + 1) (apply_candidate wc c)).2.1 p hp
        · intro p hp
          simp only at hp
          exact (ih (i₀ + 1) base).2.1 p hp
    · simp only [candidate_loop]
      split
      · simp
      · split
        · split
          · intro p hp q hq
            simp at hp hq
            subst hp
            rw [hq]
          · intro p hp q hq
            simp only at hp
            simp only [List.mem_cons] at hq
            have hge := accepts_index_ge margin quality pushOk kill base score_b rest (i₀ + 1) _ p hp
            rcases hq with hq | hq
            · rw [hq]
              simp
              omega
            · exact (ih (i₀ + 1) (apply_candidate wc c)).2.2.1 p hp q hq
        · intro p hp q hq
          simp only at hp
          simp only [List.mem_cons] at hq
          have hge := accepts_index_ge margin quality pushOk kill base score_b rest (i₀ + 1) _ p hp
          rcases hq with hq | hq
          · rw [hq]
            simp
            omega
          · exact (ih (i₀ + 1) base).2.2.1 p hp q hq

/-- C4 witness: a run whose first candidate improves the score and whose
publication completes accepts it with delta 100, which meets the margin. -/
theorem at_most_one_accept_witness :
    (0, (100 : ℚ)) ∈ (candidate_loop 5 demoQuality yesPush noKill [] 50 [demoCandA, demoCandB] 0 []).accepts
    ∧ (5 : ℚ) ≤ (100 : ℚ) := by
  have hm : (0, (100 : ℚ)) ∈ (candidate_loop 5 demoQuality yesPush noKill [] 50 [demoCandA, demoCandB] 0 []).accepts := by
    simp [candidate_loop, demoQuality, yesPush, noKill, apply_candidate, writeFS,
      compute_score, demoCandA, demoCandB]
    norm_num [process_repo_delta]
  refine ⟨hm, ?_⟩
  have := (at_most_one_accept 5 demoQuality yesPush noKill [] 50 [demoCandA, demoCandB] 0 []).2.1 (0, 100) hm
  simpa using this

/-- C5: the kill switch is checked before every candidate application and
before every repository: every candidate that gets applied, and every
repository that gets processed, had the kill-switch check just before it
report the sentinel file absent.  Hence if the sentinel exists at the check
before candidate N+1 (or a repository), that candidate is never applied and
that repository (and, the sentinel persisting, all later ones) is never
processed. -/
theorem kill_gates_processing (margin : ℚ) (quality : FS → Bool × ℕ)
    (pushOk kill : ℕ → Bool) (base : FS) (score_b : ℤ) :
    (∀ (cands : List Candidate) (i₀ : ℕ) (wc : FS),
      ∀ p ∈ (candidate_loop margin quality pushOk kill base score_b cands i₀ wc).applied,
        kill p.1 = false)
    ∧ (∀ (repos : List String) (j₀ : ℕ),
        ∀ p ∈ repo_loop kill repos j₀, kill p.1 = false) := by
  constructor
  · intro cands
    induction cands with
    | nil =>
      intro i₀ wc p hp
      simp [candidate_loop] at hp
    | cons c rest ih =>
      intro i₀ wc p hp
      simp only [candidate_loop] at hp
      split at hp
      · simp at hp
      · rename_i hk
        split at hp
        · split at hp
          · simp at hp
            subst hp
            simpa using hk
          · simp only [List.mem_cons] at hp
            rcases hp with hp | hp
            · rw [hp]
              simpa using hk
            · exact ih (i₀ + 1) _ p hp
        · simp only [List.mem_cons] at hp
          rcases hp with hp | hp
          · rw [hp]
            simpa using hk
          · exact ih (i₀ + 1) _ p hp
  · intro repos
    induction repos with
    | nil =>
      intro j₀ p hp
      simp [repo_loop] at hp
    | cons r rest ih =>
      intro j₀ p hp
      simp only [repo_loop] at hp
      split at hp
      · simp at hp
      · rename_i hk
        simp only [List.mem_cons] at hp
        rcases hp with hp | hp
        · rw [hp]
          simpa using hk
        · exact ih (j₀ + 1) p hp

/-- C5 witness: on the schedule where the sentinel appears right after
check 0, candidate 0 is applied and repository 0 is processed, and the
theorem yields that their pre-checks found the sentinel absent; candidate 1
and repository 1 never appear in the traces. -/
theorem kill_gates_processing_witness :
    ((0, ([] : FS)) ∈ (candidate_loop 5 flatQuality noPush killAfter0 [] 100 [demoCandA, demoCandB] 0 []).applied
      ∧ killAfter0 0 = false)
    ∧ ((0, "r1") ∈ repo_loop killAfter0 ["r1", "r2"] 0 ∧ killAfter0 0 = false) := by
  have m1 : (0, ([] : FS)) ∈ (candidate_loop 5 flatQuality noPush killAfter0 [] 100 [demoCandA, demoCandB] 0 []).applied := by
    simp [candidate_loop, flatQuality, noPush, killAfter0, apply_candidate, writeFS,
      compute_score, demoCandA, demoCandB]
    norm_num [process_repo_delta]
  have m2 : (0, "r1") ∈ repo_loop killAfter0 ["r1", "r2"] 0 := by
    simp [repo_loop, killAfter0]
  exact ⟨⟨m1, (kill_gates_processing 5 flatQuality noPush killAfter0 [] 100).1 [demoCandA, demoCandB] 0 [] (0, []) m1⟩,
    ⟨m2, (kill_gates_processing 5 flatQuality noPush killAfter0 [] 100).2 ["r1", "r2"] 0 (0, "r1") m2⟩⟩

/-- C6: `compute_quality` never raises to its caller: it agrees with the
`Result`-shaped assessment whenever no tool fails, it returns the sentinel
lint count 9999 whenever the flake8 block fails to run, and it returns a
plain measurement for every combination of tool outcomes. -/
theorem compute_quality_never_raises :
    ∀ (hasTests : Bool) (pytestRun : Except Unit ℤ) (flakeRun : Except Unit String),
      (∀ m, compute_quality_raw hasTests pytestRun flakeRun = .ok m →
        compute_quality hasTests pytestRun flakeRun = m)
      ∧ (∀ u, (compute_quality hasTests pytestRun (Except.error u)).2 = 9999)
      ∧ (∃ tests_ok lint_count,
          compute_quality hasTests pytestRun flakeRun = (tests_ok, lint_count)) := by
  intro ht pt fl
  refine ⟨?_, ?_, ?_⟩
  · intro m hm
    cases ht <;> cases pt <;> cases fl <;>
      simp_all [compute_quality, compute_quality_raw, Except.map, Except.bind, bind]
  · intro u
    cases ht <;> cases pt <;> simp [compute_quality]
  · exact ⟨_, _, rfl⟩

/-- C6 witness: a run with tests present, pytest exiting 0 and flake8
reporting no issues agrees with the failure-propagating assessment. -/
theorem compute_quality_never_raises_witness :
    compute_quality_raw true (Except.ok 0) (Except.ok "") = Except.ok (true, 0)
    ∧ compute_quality true (Except.ok 0) (Except.ok "") = (true, 0) := by
  have hraw : compute_quality_raw true (Except.ok 0) (Except.ok "") = Except.ok (true, 0) := by
    rfl
  exact ⟨hraw, (compute_quality_never_raises true (Except.ok 0) (Except.ok "")).1 (true, 0) hraw⟩

/-- C7 counterexample: the response text `5` parses as JSON
(`json.loads` succeeds with the number 5) but is not a list of
`{file, new_content, reason}` records; `propose_candidates` returns it
unchanged rather than an empty sequence — refuting the claim that any
response not parseable as the expected structure yields an empty batch. -/
theorem propose_candidates_passes_malformed :
    propose_candidates (Except.ok (Json.num 5)) = Json.num 5
    ∧ isCandidateBatchJson (Json.num 5) = false
    ∧ Json.num 5 ≠ Json.arr [] := by
  refine ⟨rfl, rfl, ?_⟩
  intro h
  exact Json.noConfusion h

/-- C7 (amended): a response on which `json.loads` raises yields the empty
candidate list without an exception, but a response that parses as JSON is
returned as-is, without any schema validation of the batch. -/
theorem propose_candidates_parse_policy :
    (∀ u, propose_candidates (Except.error u) = Json.arr [])
    ∧ (∀ v, propose_candidates (Except.ok v) = v) :=
  ⟨fun _ => rfl, fun _ => rfl⟩

/-- C8 counterexample: with the credential missing from the environment,
`kai_decision_engine.main` logs and calls `sys.exit(1)` — the process exit
status is 1, not the claimed 0. -/
theorem decision_main_missing_token_exit_status :
    decision_main none (some "owner/repo\n") = (MainOutcome.noToken, 1)
    ∧ (1 : ℕ) ≠ 0 :=
  ⟨rfl, by decide⟩

/-- C8 (amended): `agent_core.main` treats a missing credential and an
empty allowlist as non-fatal early returns with exit status 0, processing
no repository; `kai_decision_engine.main` returns status 0 on an empty
allowlist but exits with status 1 on a missing credential, likewise before
processing any repository. -/
theorem main_early_return_behavior :
    ∀ (tok : String) (reposTxt : Option String),
      agent_main false none reposTxt = (MainOutcome.noToken, 0)
      ∧ agent_main false (some tok) none = (MainOutcome.noRepos, 0)
      ∧ agent_main false (some tok) (some "") = (MainOutcome.noRepos, 0)
      ∧ decision_main none reposTxt = (MainOutcome.noToken, 1)
      ∧ decision_main (some tok) none = (MainOutcome.noRepos, 0)
      ∧ decision_main (some tok) (some "") = (MainOutcome.noRepos, 0)
      ∧ mainTargets MainOutcome.noToken = []
      ∧ mainTargets MainOutcome.noRepos = [] := by
  intro tok reposTxt
  exact ⟨rfl, rfl, rfl, rfl, rfl, rfl, rfl, rfl⟩

/-- C9: each deterministic safe mutation — ensuring the `.editorconfig`
file exists and ensuring the Maintained-by-Kai badge marker is present in
the README — is idempotent on every working-copy state, and so is
`apply_safe_mutations`, which performs both. -/
theorem safe_mutations_idempotent :
    ∀ fs : FS,
      ensure_editorconfig (ensure_editorconfig fs) = ensure_editorconfig fs
      ∧ ensure_badge (ensure_badge fs) = ensure_badge fs
      ∧ apply_safe_mutations (apply_safe_mutations fs) = apply_safe_mutations fs := by
  intro fs
  exact ⟨ensure_editorconfig_idem fs, ensure_badge_idem fs, apply_safe_mutations_idem fs⟩

/-- C10: when `repos.txt` does not exist, `read_allowlist` returns the
empty list without raising — the same allowlist, and the same
nothing-to-do early return of `main` with exit status 0, as when the file
exists but is empty. -/
theorem read_allowlist_missing_file :
    read_allowlist none = []
    ∧ read_allowlist none = read_allowlist (some "")
    ∧ (∀ tok : String, agent_main false (some tok) none = agent_main false (some tok) (some ""))
    ∧ (∀ tok : String, (agent_main false (some tok) none).1 = MainOutcome.noRepos) :=
  ⟨rfl, rfl, fun _ => rfl, fun _ => rfl⟩

end KAI
